import Mathlib

/-!
# A verification development for the iroh-net MagicSock and relay client

This file gives a shallow embedding, in Lean 4, of the parts of
`iroh-net/src/magicsock.rs` and `iroh-net/src/relay/client/conn.rs` that the
specification talks about, and proves (or refutes) the specified properties
against those definitions.

Modelling conventions:
* Rust byte slices become `List Nat` (each element conceptually `< 256`).
* Machine integers become `Nat` with explicit `% 2 ^ w` where wraparound
  matters (the `AtomicU64` address counter).
* Fallible operations return `Except`; a Rust panic is modelled as `Option`
  with `none` for the panicking input.
* Stateful/async context (socket readiness, node-map contents, channel
  state) is passed in explicitly as an environment record; the functions
  additionally return the externally visible effects they would perform
  (packets handed to a socket, messages queued to an actor, metric
  counters bumped).
-/

/-- Kinds of `std::io::Error` distinguished by the embedded code. -/
inductive IoErrorKind where
  | notConnected
  | wouldBlock
  | connectionReset
  | unexpectedEof
  | otherKind
  deriving DecidableEq, Repr

/-- `std::net::IpAddr`: 4 address bytes for V4, 16 for V6. -/
inductive IpAddr where
  | v4 (bytes : List Nat)
  | v6 (bytes : List Nat)
  deriving DecidableEq, Repr

/-- `IpAddr::is_ipv6`. -/
def IpAddr.is_ipv6 : IpAddr → Bool
  | .v4 _ => false
  | .v6 _ => true

/-- `std::net::SocketAddr`: an IP address plus a port. -/
structure SocketAddr where
  ip : IpAddr
  port : Nat
  deriving DecidableEq, Repr

/-- `SocketAddr::is_ipv6`. -/
def SocketAddr.is_ipv6 (a : SocketAddr) : Bool := a.ip.is_ipv6

/-- A relay server URL, used verbatim as a routing key. -/
abbrev RelayUrl := String

/-- A node identifier / public key (32-byte Ed25519 key, abstracted). -/
abbrev NodeId := Nat

/-- `quinn_udp::Transmit`, the outbound datagram handed to `try_send`. -/
structure Transmit where
  destination : SocketAddr
  contents : List Nat
  segment_size : Option Nat
  src_ip : Option IpAddr
  deriving DecidableEq, Repr

/-- Rust `slice::chunks`: consecutive chunks of size `s`, last possibly
shorter.  Only called with `s ≠ 0` (Rust panics on 0; callers guard). -/
def chunksOf (s : Nat) (l : List Nat) : List (List Nat) :=
  if l = [] then []
  else if s = 0 then []
  else l.take s :: chunksOf s (l.drop s)
termination_by l.length
decreasing_by
  rename_i hl hs
  simp_wf
  have h1 : 0 < l.length := List.length_pos.mpr hl
  have h2 : 0 < s := Nat.pos_of_ne_zero hs
  have h3 : (l.drop s).length = l.length - s := List.length_drop s l
  omega

/-- `split_packets` (magicsock.rs): split a GSO transmit into individual
relay packets.  With a segment size the contents are chunked by it; without
one the contents are a single packet.  `none` models the Rust panic of
`slice::chunks` when `segment_size` is `Some(0)`. -/
def split_packets (transmit : Transmit) : Option (List (List Nat)) :=
  match transmit.segment_size with
  | some 0 => none
  | some s => some (chunksOf s transmit.contents)
  | none => some [transmit.contents]

/-- `PacketSplitIter::next` (magicsock.rs): one step of splitting a relay
payload into length-prefixed (16-bit little-endian) datagrams.  Returns the
yielded item (if any) and the remaining bytes; on a malformed remainder it
yields an `UnexpectedEof` error and clears the buffer (`fail`). -/
def psiNext (bytes : List Nat) : Option (Except IoErrorKind (List Nat)) × List Nat :=
  match bytes with
  | [] => (none, [])
  | [_] => (some (.error .unexpectedEof), [])
  | b0 :: b1 :: rest =>
    let len := b0 + 256 * b1
    if rest.length < len then (some (.error .unexpectedEof), [])
    else (some (.ok (rest.take len)), rest.drop len)

/-- The full run of a `PacketSplitIter` over a payload: the list of items the
iterator yields, in order, until it returns `None`. -/
def psiRun (bytes : List Nat) : List (Except IoErrorKind (List Nat)) :=
  match bytes with
  | [] => []
  | [_] => [.error .unexpectedEof]
  | b0 :: b1 :: rest =>
    let len := b0 + 256 * b1
    if rest.length < len then [.error .unexpectedEof]
    else .ok (rest.take len) :: psiRun (rest.drop len)
termination_by bytes.length
decreasing_by
  simp_wf
  have h3 : (rest.drop (b0 + 256 * b1)).length = rest.length - (b0 + 256 * b1) :=
    List.length_drop _ rest
  omega

/-- The wire encoding of a sequence of datagrams as carried in one relay
payload: each datagram is prefixed by its length as a 16-bit little-endian
integer. -/
def encodeDatagrams : List (List Nat) → List Nat
  | [] => []
  | d :: ds => (d.length % 256) :: (d.length / 256) :: (d ++ encodeDatagrams ds)

/-- The origin of a `DirectAddr` (magicsock.rs `DirectAddrType`). -/
inductive DirectAddrType where
  | Unknown
  | Local
  | Stun
  | Portmapped
  | Stun4LocalPort
  deriving DecidableEq, Repr

/-- A direct address of a node: a socket address plus its origin. -/
structure DirectAddr where
  addr : SocketAddr
  typ : DirectAddrType
  deriving DecidableEq, Repr

/-- `*m.entry(x).or_default() |= bit` on the `HashMap<&DirectAddr, usize>` of
`endpoint_sets_equal`, with the map modelled as an association list. -/
def bitOrInsert (m : List (DirectAddr × Nat)) (k : DirectAddr) (bit : Nat) :
    List (DirectAddr × Nat) :=
  match m with
  | [] => [(k, bit)]
  | (k', v) :: rest =>
    if k' = k then (k', v ||| bit) :: rest else (k', v) :: bitOrInsert rest k bit

/-- `endpoint_sets_equal` (magicsock.rs): reports whether two `DirectAddr`
lists represent the same endpoints.  Empty/empty and identical lists short
circuit to `true`; otherwise each element of `xs` contributes bit 1 and each
element of `ys` bit 2 to a per-key map, and the result is whether every key
carries both bits. -/
def endpoint_sets_equal (xs ys : List DirectAddr) : Bool :=
  if xs = [] ∧ ys = [] then true
  else if xs.length = ys.length ∧ xs = ys then true
  else
    (ys.foldl (fun m y => bitOrInsert m y 2)
      (xs.foldl (fun m x => bitOrInsert m x 1) [])).all fun kv => kv.2 == 3

/-- Association-list lookup for the bit map. -/
def lookupBit (m : List (DirectAddr × Nat)) (k : DirectAddr) : Option Nat :=
  match m with
  | [] => none
  | (k', v) :: rest => if k' = k then some v else lookupBit rest k

/-- The fake (QUIC-mapped) address: a newtype over `SocketAddr`. -/
structure QuicMappedAddr where
  addr : SocketAddr
  deriving DecidableEq, Repr

/-- A pending path-discovery action returned by the node map
(magicsock `PingAction`), payloads abstracted. -/
inductive PingAction where
  | sendCallMeMaybe (dst : NodeId)
  | sendPing (payload : Nat)
  deriving DecidableEq, Repr

/-- Outcome of `tokio::mpsc::Sender::try_send` on the relay-actor channel. -/
inductive ChanSendResult where
  | sent
  | fullChan
  | closedChan
  deriving DecidableEq, Repr

/-- The context `MagicSock::try_send` runs in: the `closed` flag, the node
map (`get_send_addrs`), whether an IPv6 socket exists, the outcome of a raw
UDP socket send, and the state of the relay-actor channel. -/
structure MagicSockSendEnv where
  closed : Bool
  ipv6Reported : Bool
  getSendAddrs :
    QuicMappedAddr → Bool → Option (NodeId × Option SocketAddr × Option RelayUrl × List PingAction)
  pconn6 : Bool
  udpSocketSend : SocketAddr → Transmit → Except IoErrorKind Unit
  relayChan : ChanSendResult

/-- The externally visible effects of one `try_send` call: transmits handed
to a UDP socket, `RelayActorMessage::Send` messages queued, and ping actions
handed to `try_send_ping_actions`. -/
structure SendEffects where
  udpTransmits : List (SocketAddr × Transmit)
  relayMsgs : List (RelayUrl × NodeId × List (List Nat))
  pingActions : List PingAction
  deriving Repr

/-- No effect at all. -/
def noEffects : SendEffects := ⟨[], [], []⟩

/-- `MagicSock::conn_for_addr`: the IPv4 socket always exists; the IPv6 one
only if bound, otherwise an `Other` error. -/
def conn_for_addr (env : MagicSockSendEnv) (addr : SocketAddr) : Except IoErrorKind Unit :=
  match addr.ip with
  | .v4 _ => .ok ()
  | .v6 _ => if env.pconn6 then .ok () else .error .otherKind

/-- `MagicSock::try_send_udp`: pick the socket for the address family and
send on it. -/
def try_send_udp (env : MagicSockSendEnv) (addr : SocketAddr) (transmit : Transmit) :
    Except IoErrorKind Unit :=
  match conn_for_addr env addr with
  | .error e => .error e
  | .ok () => env.udpSocketSend addr transmit

/-- `MagicSock::try_send_relay`: queue a `RelayActorMessage::Send` on the
relay-actor channel; `Closed` maps to `ConnectionReset`, `Full` to
`WouldBlock`. -/
def try_send_relay (env : MagicSockSendEnv) : Except IoErrorKind Unit :=
  match env.relayChan with
  | .sent => .ok ()
  | .closedChan => .error .connectionReset
  | .fullChan => .error .wouldBlock

/-- Whether an optional send outcome is an error of kind `WouldBlock`
(`err.kind() == io::ErrorKind::WouldBlock`, `unwrap_or_default` on `None`). -/
def errIsWouldBlock : Option (Except IoErrorKind Unit) → Bool
  | some (.error .wouldBlock) => true
  | _ => false

/-- The final result computation of `try_send`: `WouldBlock` iff both path
attempts ended in `WouldBlock`, otherwise `Ok` (hard errors included). -/
def sendOutcome (udpResult relayResult : Option (Except IoErrorKind Unit)) :
    Except IoErrorKind Unit :=
  if errIsWouldBlock udpResult && errIsWouldBlock relayResult then .error .wouldBlock
  else .ok ()

/-- `MagicSock::try_send`: refuse when closed; silently succeed when the fake
destination has no node-map entry; otherwise attempt UDP and/or relay sends
and combine the outcomes.  `none` models the `slice::chunks` panic of
`split_packets` on `segment_size = Some(0)`. -/
def try_send (env : MagicSockSendEnv) (transmit : Transmit) :
    Option (Except IoErrorKind Unit × SendEffects) :=
  if env.closed then some (.error .notConnected, noEffects)
  else
    match env.getSendAddrs ⟨transmit.destination⟩ env.ipv6Reported with
    | none => some (.ok (), noEffects)
    | some (nodeId, udpAddr, relayUrl, msgs) =>
      let udpResult : Option (Except IoErrorKind Unit) :=
        udpAddr.map fun addr => try_send_udp env addr { transmit with destination := addr }
      let udpEffects : List (SocketAddr × Transmit) :=
        match udpAddr with
        | some addr => [(addr, { transmit with destination := addr })]
        | none => []
      match relayUrl with
      | some url =>
        match split_packets transmit with
        | none => none
        | some contents =>
          let relayResult := try_send_relay env
          let relayEffects : List (RelayUrl × NodeId × List (List Nat)) :=
            match relayResult with
            | .ok () => [(url, nodeId, contents)]
            | .error _ => []
          some (sendOutcome udpResult (some relayResult), ⟨udpEffects, relayEffects, msgs⟩)
      | none =>
        some (sendOutcome udpResult none, ⟨udpEffects, [], msgs⟩)

/-- The UDP path was attempted for this transmit and failed with `WouldBlock`. -/
def udpAttemptWouldBlock (env : MagicSockSendEnv) (transmit : Transmit)
    (udpAddr : Option SocketAddr) : Bool :=
  match udpAddr with
  | some addr =>
    errIsWouldBlock (some (try_send_udp env addr { transmit with destination := addr }))
  | none => false

/-- The relay path was attempted and failed with `WouldBlock` (full channel). -/
def relayAttemptWouldBlock (env : MagicSockSendEnv) (relayUrl : Option RelayUrl) : Bool :=
  match relayUrl with
  | some _ => errIsWouldBlock (some (try_send_relay env))
  | none => false

/-- The UDP-socket effect of one `try_send` call: the rewritten transmit, if
a UDP address was chosen. -/
def udpEffectsOf (transmit : Transmit) (udpAddr : Option SocketAddr) :
    List (SocketAddr × Transmit) :=
  match udpAddr with
  | some addr => [(addr, { transmit with destination := addr })]
  | none => []

/-- The relay-actor effect of one `try_send` call: the queued
`RelayActorMessage::Send`, if a relay URL was chosen and the channel accepted
the message. -/
def relayEffectsOf (env : MagicSockSendEnv) (nodeId : NodeId) (relayUrl : Option RelayUrl)
    (contents : List (List Nat)) : List (RelayUrl × NodeId × List (List Nat)) :=
  match relayUrl with
  | none => []
  | some url =>
    match try_send_relay env with
    | .ok () => [(url, nodeId, contents)]
    | .error _ => []

/-- A send environment in which the node map knows the destination, the UDP
socket refuses with `WouldBlock` and the relay channel is full. -/
def envBothBlocked : MagicSockSendEnv where
  closed := false
  ipv6Reported := false
  getSendAddrs := fun _ _ =>
    some (0, some ⟨.v4 [10, 0, 0, 1], 7000⟩, some "https://relay.example", [])
  pconn6 := true
  udpSocketSend := fun _ _ => .error .wouldBlock
  relayChan := .fullChan

/-- A send environment whose node map has no entry for any destination. -/
def envNoNode : MagicSockSendEnv where
  closed := false
  ipv6Reported := true
  getSendAddrs := fun _ _ => none
  pconn6 := false
  udpSocketSend := fun _ _ => .ok ()
  relayChan := .sent

/-- `std::task::Poll`. -/
inductive Poll (α : Type) where
  | ready (value : α)
  | pending
  deriving DecidableEq, Repr

/-- The context `MagicSock::poll_recv` runs in: the `closed` flag, the poll
results of the two UDP sockets, the queued relay-inbox items (with the
channel-disconnected state once they are exhausted), and the number of caller
buffer slots. -/
structure MagicSockRecvEnv where
  closed : Bool
  pconn4Recv : Poll (Except IoErrorKind Nat)
  pconn6Recv : Option (Poll (Except IoErrorKind Nat))
  relayInbox : List (Except IoErrorKind (NodeId × List Nat))
  relayDisconnected : Bool
  bufsLen : Nat

/-- The per-slot loop of `MagicSock::poll_recv_relay`: read queued relay
datagrams into the buffers until a slot limit, an empty channel
(park the waker, break), a disconnected channel (`NotConnected`), or a
forwarded error. -/
def poll_recv_relay_loop (env : MagicSockRecvEnv) (slots : Nat)
    (inbox : List (Except IoErrorKind (NodeId × List Nat))) (numMsgs : Nat) :
    Poll (Except IoErrorKind Nat) :=
  match slots with
  | 0 => if numMsgs > 0 then .ready (.ok numMsgs) else .pending
  | slots' + 1 =>
    if env.closed then
      if numMsgs > 0 then .ready (.ok numMsgs) else .pending
    else
      match inbox with
      | [] =>
        if env.relayDisconnected then .ready (.error .notConnected)
        else if numMsgs > 0 then .ready (.ok numMsgs) else .pending
      | .error e :: _ => .ready (.error e)
      | .ok _ :: rest => poll_recv_relay_loop env slots' rest (numMsgs + 1)

/-- `MagicSock::poll_recv_relay`. -/
def poll_recv_relay (env : MagicSockRecvEnv) : Poll (Except IoErrorKind Nat) :=
  poll_recv_relay_loop env env.bufsLen env.relayInbox 0

/-- The IPv6-then-relay fallback of `poll_recv` (entered when IPv4 had no
data). -/
def poll_recv_after4 (env : MagicSockRecvEnv) : Poll (Except IoErrorKind Nat) :=
  match env.pconn6Recv with
  | some (.ready (.error e)) => .ready (.error e)
  | some (.ready (.ok n)) => if n = 0 then poll_recv_relay env else .ready (.ok n)
  | some .pending => poll_recv_relay env
  | none => poll_recv_relay env

/-- `MagicSock::poll_recv`: `Pending` when closed; otherwise poll UDPv4, then
UDPv6, then the relay inbox, stopping at the first with data.  (The in-place
classification of the received datagrams mutates the caller's buffers and
metas but not the returned `Poll`, which is the message count of the first
socket with data; only the returned value is modelled.) -/
def poll_recv (env : MagicSockRecvEnv) : Poll (Except IoErrorKind Nat) :=
  if env.closed then .pending
  else
    match env.pconn4Recv with
    | .ready (.error e) => .ready (.error e)
    | .ready (.ok n) => if n = 0 then poll_recv_after4 env else .ready (.ok n)
    | .pending => poll_recv_after4 env

/-- Where a DISCO message arrived from (magicsock `DiscoMessageSource`). -/
inductive DiscoMessageSource where
  | udp (addr : SocketAddr)
  | relay (url : RelayUrl) (key : NodeId)
  deriving DecidableEq, Repr

/-- `DiscoMessageSource::is_relay`. -/
def DiscoMessageSource.is_relay : DiscoMessageSource → Bool
  | .relay _ _ => true
  | .udp _ => false

/-- A path a DISCO reply can be sent on (magicsock `SendAddr`). -/
inductive SendAddr where
  | udp (addr : SocketAddr)
  | relay (url : RelayUrl)
  deriving DecidableEq, Repr

/-- `From<DiscoMessageSource> for SendAddr`. -/
def DiscoMessageSource.toSendAddr : DiscoMessageSource → SendAddr
  | .udp addr => .udp addr
  | .relay url _ => .relay url

/-- A decoded DISCO message (disco.rs `Message`), payloads abstracted to what
the embedded control flow inspects. -/
inductive DiscoMessage where
  | ping (txId : Nat) (nodeKey : NodeId)
  | pong (txId : Nat)
  | callMeMaybe (myNumbers : List SocketAddr)
  deriving DecidableEq, Repr

/-- `DiscoBoxError`: the sealed box did not open, or opened to an unparsable
body. -/
inductive DiscoBoxError where
  | openFailed
  | parseFailed
  deriving DecidableEq, Repr

/-- The node map's classification of an incoming ping. -/
inductive PingRole where
  | duplicate
  | likelyHeartbeat
  | newPath
  | activate
  deriving DecidableEq, Repr

/-- The node map's answer to `handle_ping`. -/
structure PingHandled where
  role : PingRole
  needsPingBack : Option Nat
  deriving DecidableEq, Repr

/-- The metric counters `handle_disco_message` can bump. -/
inductive MetricCounter where
  | recvDiscoBadKey
  | recvDiscoBadParse
  | recvDiscoUdp
  | recvDiscoRelay
  | recvDiscoPing
  | recvDiscoPong
  | recvDiscoCallMeMaybe
  deriving DecidableEq, Repr

/-- The context `MagicSock::handle_disco_message` runs in: the `closed` flag,
the outcome of `unseal_and_decode` on the sealed box, and the node map's
`handle_ping` / `handle_call_me_maybe`. -/
structure DiscoEnv where
  closed : Bool
  unsealDecode : Except DiscoBoxError DiscoMessage
  handlePing : NodeId → SendAddr → Nat → PingHandled
  handleCallMeMaybe : NodeId → List SocketAddr → List PingAction

/-- The externally visible effects of one `handle_disco_message` call. -/
structure DiscoEffects where
  counters : List MetricCounter
  callMeMaybeInvocations : List (NodeId × List SocketAddr)
  pongHandled : List (NodeId × Nat)
  pongsQueued : List (SendAddr × NodeId)
  pingsQueued : List Nat
  warnings : Nat
  deriving DecidableEq, Repr

/-- `MagicSock::handle_disco_message`: drop everything when closed; count and
drop undecodable boxes; count the source (relay vs UDP); then dispatch Ping
(pong reply plus optional ping-back, except for duplicates), Pong (to the
node map) and CallMeMaybe — which is handed to the node map only when it
arrived via relay, and otherwise counted, warned about and dropped. -/
def handle_disco_message (env : DiscoEnv) (sender : NodeId) (src : DiscoMessageSource) :
    DiscoEffects :=
  if env.closed then ⟨[], [], [], [], [], 0⟩
  else
    match env.unsealDecode with
    | .error .openFailed => ⟨[.recvDiscoBadKey], [], [], [], [], 1⟩
    | .error .parseFailed => ⟨[.recvDiscoBadParse], [], [], [], [], 0⟩
    | .ok dm =>
      let srcCounter := if src.is_relay then MetricCounter.recvDiscoRelay
        else MetricCounter.recvDiscoUdp
      match dm with
      | .ping txId _nodeKey =>
        let addr := src.toSendAddr
        let handled := env.handlePing sender addr txId
        match handled.role with
        | .duplicate => ⟨[srcCounter, .recvDiscoPing], [], [], [], [], 0⟩
        | _ =>
          ⟨[srcCounter, .recvDiscoPing], [], [], [(addr, sender)],
            (match handled.needsPingBack with | some p => [p] | none => []), 0⟩
      | .pong txId => ⟨[srcCounter, .recvDiscoPong], [], [(sender, txId)], [], [], 0⟩
      | .callMeMaybe myNumbers =>
        match src with
        | .relay _ _ =>
          let actions := env.handleCallMeMaybe sender myNumbers
          ⟨[srcCounter, .recvDiscoCallMeMaybe], [(sender, myNumbers)], [], [],
            actions.filterMap (fun a =>
              match a with | .sendPing p => some p | .sendCallMeMaybe _ => none),
            (actions.filter (fun a =>
              match a with | .sendCallMeMaybe _ => true | .sendPing _ => false)).length⟩
        | .udp _ => ⟨[srcCounter, .recvDiscoCallMeMaybe], [], [], [], [], 1⟩

/-- A disco environment delivering a CallMeMaybe for two addresses. -/
def envCallMeMaybe : DiscoEnv where
  closed := false
  unsealDecode := .ok (.callMeMaybe [⟨.v4 [1, 1, 1, 1], 1000⟩, ⟨.v4 [2, 2, 2, 2], 2000⟩])
  handlePing := fun _ _ _ => ⟨.duplicate, none⟩
  handleCallMeMaybe := fun _ _ => [.sendPing 42]

/-- Modelled from the spec: `MAX_PACKET_SIZE` is a constant of the relay
codec module (not among the provided sources); relay frames carry "up to
MAX_PACKET_SIZE bytes".  Its concrete value (64 KiB) is irrelevant to the
claims, which only compare packet lengths against it. -/
def MAX_PACKET_SIZE : Nat := 64 * 1024

/-- A relay `Frame::SendPacket`: destination key plus packet bytes. -/
structure Frame where
  dst_key : NodeId
  packet : List Nat
  deriving DecidableEq, Repr

/-- Modelled from the spec: the wire length of a `SendPacket` frame used by
the rate-limiter check (`frame.len()`, defined in the relay codec module):
the 32-byte public key followed by the packet bytes. -/
def Frame.len (f : Frame) : Nat := 32 + f.packet.length

/-- The context `send_packet` (relay/client/conn.rs) runs in: the optional
rate limiter (as the predicate "a frame of this many bytes may pass"), and
the outcomes of `writer.send` and `writer.flush`. -/
structure SendPacketEnv where
  rateLimiterCheck : Option (Nat → Bool)
  writerSend : Except IoErrorKind Unit
  writerFlush : Except IoErrorKind Unit

/-- Errors of `send_packet` (an `anyhow::Result`): the size check, or a
writer I/O failure. -/
inductive SendPacketError where
  | packetTooBig (n : Nat)
  | ioFailure (e : IoErrorKind)
  deriving DecidableEq, Repr

/-- Hand one frame to the sink and flush; returns the result together with
the frames actually handed to the sink. -/
def sendFrame (env : SendPacketEnv) (frame : Frame) :
    Except SendPacketError Unit × List Frame :=
  match env.writerSend with
  | .error e => (.error (.ioFailure e), [])
  | .ok () =>
    match env.writerFlush with
    | .error e => (.error (.ioFailure e), [frame])
    | .ok () => (.ok (), [frame])

/-- `send_packet` (relay/client/conn.rs): reject packets larger than
`MAX_PACKET_SIZE`; when a configured rate limiter refuses the frame, drop it
and return `Ok`; otherwise send and flush the frame. -/
def send_packet (env : SendPacketEnv) (dstKey : NodeId) (packet : List Nat) :
    Except SendPacketError Unit × List Frame :=
  if packet.length > MAX_PACKET_SIZE then (.error (.packetTooBig packet.length), [])
  else
    match env.rateLimiterCheck with
    | some check =>
      if check (Frame.len ⟨dstKey, packet⟩) then sendFrame env ⟨dstKey, packet⟩
      else (.ok (), [])
    | none => sendFrame env ⟨dstKey, packet⟩

/-- A relay-client send environment whose rate limiter refuses everything. -/
def envRateLimited : SendPacketEnv where
  rateLimiterCheck := some fun _ => false
  writerSend := .ok ()
  writerFlush := .ok ()

/-- A relay-client send environment with no rate limiter and a working
writer. -/
def envPlainWriter : SendPacketEnv where
  rateLimiterCheck := none
  writerSend := .ok ()
  writerFlush := .ok ()

/-- `u64::to_be_bytes`: the eight big-endian bytes of a 64-bit value. -/
def toBeBytes8 (n : Nat) : List Nat :=
  [n / 2 ^ 56 % 256, n / 2 ^ 48 % 256, n / 2 ^ 40 % 256, n / 2 ^ 32 % 256,
   n / 2 ^ 24 % 256, n / 2 ^ 16 % 256, n / 2 ^ 8 % 256, n % 256]

/-- The Prefix/L of the generated Unique Local Addresses. -/
def ADDR_PREFIXL : Nat := 0xfd

/-- The Global ID used in the generated Unique Local Addresses. -/
def ADDR_GLOBAL_ID : List Nat := [21, 7, 10, 81, 11]

/-- The Subnet ID used in the generated Unique Local Addresses. -/
def ADDR_SUBNET : List Nat := [0, 0]

/-- The initial value of the process-wide `ADDR_COUNTER`. -/
def ADDR_COUNTER_INIT : Nat := 1

/-- `QuicMappedAddr::generate`, with the `AtomicU64` counter passed and
returned explicitly: builds the 16 address bytes (prefix, global ID, subnet,
then the counter value big-endian), pairs them with the fixed port 12345, and
advances the counter by one (wrapping as a `u64` does). -/
def QuicMappedAddr.generate (counter : Nat) : QuicMappedAddr × Nat :=
  (⟨⟨IpAddr.v6 (ADDR_PREFIXL :: (ADDR_GLOBAL_ID ++ ADDR_SUBNET ++ toBeBytes8 counter)), 12345⟩⟩,
    (counter + 1) % 2 ^ 64)

/-- The counter value before the `n`-th `generate` call (0-indexed). -/
def counterAt : Nat → Nat
  | 0 => ADDR_COUNTER_INIT
  | n + 1 => (QuicMappedAddr.generate (counterAt n)).2

/-- The fake address returned by the `n`-th `generate` call. -/
def genAt (n : Nat) : QuicMappedAddr := (QuicMappedAddr.generate (counterAt n)).1

/-- `Ipv4Addr::to_ipv6_mapped`: `::ffff:a.b.c.d` as 16 bytes. -/
def to_ipv6_mapped (v4bytes : List Nat) : List Nat :=
  [0, 0, 0, 0, 0, 0, 0, 0, 0, 0, 255, 255] ++ v4bytes

/-- `<Handle as AsyncUdpSocket>::local_addr`: given the cached
`local_addrs` pair, return the IPv6 address when one exists; otherwise
return the IPv4 address converted to an IPv4-mapped IPv6 address with the
same port (an already-IPv6 first component is passed through). -/
def local_addr (localAddrs : SocketAddr × Option SocketAddr) : SocketAddr :=
  match localAddrs with
  | (ipv4, none) =>
    match ipv4.ip with
    | .v4 bytes => ⟨.v6 (to_ipv6_mapped bytes), ipv4.port⟩
    | .v6 bytes => ⟨.v6 bytes, ipv4.port⟩
  | (_, some ipv6) => ipv6

theorem chunksOf_nil (s : Nat) : chunksOf s [] = [] := by
  unfold chunksOf; simp

theorem chunksOf_cons (s : Nat) (l : List Nat) (hl : l ≠ []) (hs : s ≠ 0) :
    chunksOf s l = l.take s :: chunksOf s (l.drop s) := by
  conv_lhs => unfold chunksOf
  simp [hl, hs]

theorem chunksOf_join (s : Nat) (hs : s ≠ 0) (l : List Nat) :
    (chunksOf s l).flatten = l := by
  by_cases hl : l = []
  · subst hl; simp [chunksOf_nil]
  · rw [chunksOf_cons s l hl hs]
    have ih := chunksOf_join s hs (l.drop s)
    simp [ih]
termination_by l.length
decreasing_by
  simp_wf
  have h1 : 0 < l.length := List.length_pos.mpr hl
  have h2 : 0 < s := Nat.pos_of_ne_zero hs
  have h3 : (l.drop s).length = l.length - s := List.length_drop s l
  omega

theorem chunksOf_length_le (s : Nat) (hs : s ≠ 0) (l : List Nat) :
    ∀ c ∈ chunksOf s l, c.length ≤ s := by
  by_cases hl : l = []
  · subst hl; simp [chunksOf_nil]
  · rw [chunksOf_cons s l hl hs]
    intro c hc
    rcases List.mem_cons.mp hc with h | h
    · subst h
      simp [List.length_take]
    · exact chunksOf_length_le s hs (l.drop s) c h
termination_by l.length
decreasing_by
  simp_wf
  have h1 : 0 < l.length := List.length_pos.mpr hl
  have h2 : 0 < s := Nat.pos_of_ne_zero hs
  have h3 : (l.drop s).length = l.length - s := List.length_drop s l
  omega

theorem chunksOf_eq_nil_iff (s : Nat) (hs : s ≠ 0) (l : List Nat) :
    chunksOf s l = [] ↔ l = [] := by
  constructor
  · intro h
    by_contra hl
    rw [chunksOf_cons s l hl hs] at h
    exact List.cons_ne_nil _ _ h
  · intro h; subst h; exact chunksOf_nil s

theorem chunksOf_dropLast_length (s : Nat) (hs : s ≠ 0) (l : List Nat) :
    ∀ c ∈ (chunksOf s l).dropLast, c.length = s := by
  by_cases hl : l = []
  · subst hl; simp [chunksOf_nil]
  · rw [chunksOf_cons s l hl hs]
    intro c hc
    by_cases htail : chunksOf s (l.drop s) = []
    · rw [htail] at hc
      simp at hc
    · rw [List.dropLast_cons_of_ne_nil htail] at hc
      rcases List.mem_cons.mp hc with h | h
      · subst h
        have hdrop : l.drop s ≠ [] := (not_iff_not.mpr (chunksOf_eq_nil_iff s hs _)).mp htail
        have hlen : s < l.length := by
          by_contra hle
          push_neg at hle
          exact hdrop (List.drop_eq_nil_of_le hle)
        simp [List.length_take]
        omega
      · exact chunksOf_dropLast_length s hs (l.drop s) c h
termination_by l.length
decreasing_by
  simp_wf
  have h1 : 0 < l.length := List.length_pos.mpr hl
  have h2 : 0 < s := Nat.pos_of_ne_zero hs
  have h3 : (l.drop s).length = l.length - s := List.length_drop s l
  omega

/-- **C7.** For every transmit `t`, the concatenation of the chunks returned by
`split_packets t` equals `t.contents`; when `t.segment_size` is `some s`, every
chunk has length at most `s` and all but possibly the last have length exactly
`s`; when it is `none` the result is the single chunk `t.contents`.  The two
concrete examples of the claim ("helloworld" / "hello world" with segment size
5, as ASCII bytes) evaluate as stated.  (`segment_size = some 0` is excluded:
there Rust's `slice::chunks` panics, modelled by `split_packets` returning
`none`.) -/
theorem split_packets_spec :
    (∀ t : Transmit, t.segment_size ≠ some 0 →
      ∃ res, split_packets t = some res ∧
        res.flatten = t.contents ∧
        (∀ s, t.segment_size = some s →
          (∀ c ∈ res, c.length ≤ s) ∧ ∀ c ∈ res.dropLast, c.length = s) ∧
        (t.segment_size = none → res = [t.contents])) ∧
    split_packets ⟨⟨.v4 [127, 0, 0, 1], 1⟩,
        [104, 101, 108, 108, 111, 119, 111, 114, 108, 100], some 5, none⟩ =
      some [[104, 101, 108, 108, 111], [119, 111, 114, 108, 100]] ∧
    split_packets ⟨⟨.v4 [127, 0, 0, 1], 1⟩,
        [104, 101, 108, 108, 111, 32, 119, 111, 114, 108, 100], some 5, none⟩ =
      some [[104, 101, 108, 108, 111], [32, 119, 111, 114, 108], [100]] := by
  refine ⟨?_, ?_, ?_⟩
  · rintro ⟨dest, contents, seg, si⟩ h
    cases seg with
    | none =>
      exact ⟨[contents], rfl, by simp, by simp, fun _ => rfl⟩
    | some s =>
      cases s with
      | zero => exact absurd rfl h
      | succ n =>
        refine ⟨chunksOf (n + 1) contents, rfl, ?_, ?_, ?_⟩
        · exact chunksOf_join (n + 1) (Nat.succ_ne_zero n) contents
        · intro s hs
          have : s = n + 1 := by simpa using hs.symm
          subst this
          exact ⟨chunksOf_length_le (n + 1) (Nat.succ_ne_zero n) contents,
            chunksOf_dropLast_length (n + 1) (Nat.succ_ne_zero n) contents⟩
        · intro hnone; cases hnone
  · show some (chunksOf 5 [104, 101, 108, 108, 111, 119, 111, 114, 108, 100]) = _
    rw [chunksOf_cons 5 [104, 101, 108, 108, 111, 119, 111, 114, 108, 100]
          (by decide) (by decide),
        chunksOf_cons 5 (List.drop 5 [104, 101, 108, 108, 111, 119, 111, 114, 108, 100])
          (by decide) (by decide),
        show List.drop 5 (List.drop 5 [104, 101, 108, 108, 111, 119, 111, 114, 108, 100])
          = [] from rfl,
        chunksOf_nil]
    decide
  · show some (chunksOf 5 [104, 101, 108, 108, 111, 32, 119, 111, 114, 108, 100]) = _
    rw [chunksOf_cons 5 [104, 101, 108, 108, 111, 32, 119, 111, 114, 108, 100]
          (by decide) (by decide),
        chunksOf_cons 5 (List.drop 5 [104, 101, 108, 108, 111, 32, 119, 111, 114, 108, 100])
          (by decide) (by decide),
        chunksOf_cons 5
          (List.drop 5 (List.drop 5 [104, 101, 108, 108, 111, 32, 119, 111, 114, 108, 100]))
          (by decide) (by decide),
        show List.drop 5 (List.drop 5
          (List.drop 5 [104, 101, 108, 108, 111, 32, 119, 111, 114, 108, 100])) = [] from rfl,
        chunksOf_nil]
    decide

/-- Witness for **C7**: the split law applied to the concrete transmit
`contents = [1,2,3]`, `segment_size = some 2`. -/
theorem split_packets_spec_witness :
    ∃ res, split_packets ⟨⟨.v4 [127, 0, 0, 1], 1⟩, [1, 2, 3], some 2, none⟩ = some res ∧
      res.flatten = [1, 2, 3] ∧
      (∀ s, (some 2 : Option Nat) = some s →
        (∀ c ∈ res, c.length ≤ s) ∧ ∀ c ∈ res.dropLast, c.length = s) ∧
      ((some 2 : Option Nat) = none → res = [[1, 2, 3]]) :=
  split_packets_spec.1 ⟨⟨.v4 [127, 0, 0, 1], 1⟩, [1, 2, 3], some 2, none⟩ (by decide)

theorem psiRun_nil : psiRun [] = [] := by
  unfold psiRun
  rfl

theorem psiRun_single (b : Nat) : psiRun [b] = [.error .unexpectedEof] := by
  unfold psiRun
  rfl

theorem psiRun_cons2 (b0 b1 : Nat) (rest : List Nat) :
    psiRun (b0 :: b1 :: rest) =
      if rest.length < b0 + 256 * b1 then [.error .unexpectedEof]
      else .ok (rest.take (b0 + 256 * b1)) :: psiRun (rest.drop (b0 + 256 * b1)) := by
  conv_lhs => unfold psiRun

/-- `psiRun` is exactly the repeated application of the iterator's `next`:
when `next` yields nothing the run is over, otherwise the yielded item is
followed by the run on the remaining bytes. -/
theorem psiRun_eq_next (bytes : List Nat) :
    psiRun bytes =
      (match psiNext bytes with
       | (none, _) => []
       | (some item, rest) => item :: psiRun rest) := by
  match bytes with
  | [] => simp [psiNext, psiRun_nil]
  | [b] => simp [psiNext, psiRun_single, psiRun_nil]
  | b0 :: b1 :: rest =>
    rw [psiRun_cons2]
    simp only [psiNext]
    by_cases h : rest.length < b0 + 256 * b1
    · simp [h, psiRun_nil]
    · simp [h]

theorem psiRun_encodeDatagrams (ds : List (List Nat)) (h : ∀ d ∈ ds, d.length < 65536) :
    psiRun (encodeDatagrams ds) = ds.map Except.ok := by
  induction ds with
  | nil => simp [encodeDatagrams, psiRun_nil]
  | cons d ds ih =>
    have hlen : d.length % 256 + 256 * (d.length / 256) = d.length := Nat.mod_add_div _ _
    rw [encodeDatagrams, psiRun_cons2, hlen]
    have hge : ¬(d ++ encodeDatagrams ds).length < d.length := by
      simp [List.length_append]
    rw [if_neg hge]
    have htake : (d ++ encodeDatagrams ds).take d.length = d := List.take_left d _
    have hdrop : (d ++ encodeDatagrams ds).drop d.length = encodeDatagrams ds :=
      List.drop_left d _
    rw [htake, hdrop, ih (fun x hx => h x (List.mem_cons_of_mem d hx))]
    simp

theorem psiRun_shape (bytes : List Nat) :
    ∃ ds : List (List Nat),
      psiRun bytes = ds.map Except.ok ∨
      psiRun bytes = ds.map Except.ok ++ [Except.error IoErrorKind.unexpectedEof] := by
  match bytes with
  | [] => exact ⟨[], Or.inl (by rw [psiRun_nil]; simp)⟩
  | [b] => exact ⟨[], Or.inr (by rw [psiRun_single]; simp)⟩
  | b0 :: b1 :: rest =>
    by_cases hlt : rest.length < b0 + 256 * b1
    · exact ⟨[], Or.inr (by rw [psiRun_cons2]; simp [hlt])⟩
    · obtain ⟨ds, hds⟩ := psiRun_shape (rest.drop (b0 + 256 * b1))
      refine ⟨rest.take (b0 + 256 * b1) :: ds, ?_⟩
      rcases hds with h | h
      · exact Or.inl (by rw [psiRun_cons2]; simp [hlt, h])
      · exact Or.inr (by rw [psiRun_cons2]; simp [hlt, h])
termination_by bytes.length
decreasing_by
  simp_wf
  have h3 : (rest.drop (b0 + 256 * b1)).length = rest.length - (b0 + 256 * b1) :=
    List.length_drop _ rest
  omega

/-- **C10.** A relay payload is interpreted as a sequence of datagrams, each
prefixed by a 16-bit little-endian length: on a well-formed payload the
iterator yields exactly those datagrams in order and then ends, and on any
payload whatsoever the run consists of some datagrams followed by at most one
`UnexpectedEof` error (after which the remainder is cleared and nothing
further is yielded; the run always terminates since `psiRun` is total). -/
theorem packet_split_iter_spec :
    (∀ ds : List (List Nat), (∀ d ∈ ds, d.length < 65536) →
      psiRun (encodeDatagrams ds) = ds.map Except.ok) ∧
    (∀ bytes : List Nat, ∃ ds : List (List Nat),
      psiRun bytes = ds.map Except.ok ∨
      psiRun bytes = ds.map Except.ok ++ [Except.error IoErrorKind.unexpectedEof]) :=
  ⟨psiRun_encodeDatagrams, psiRun_shape⟩

/-- Witness for **C10**: the round-trip applied to the concrete datagrams
`[[7], [8, 9]]`. -/
theorem packet_split_iter_spec_witness :
    psiRun (encodeDatagrams [[7], [8, 9]]) = [Except.ok [7], Except.ok [8, 9]] :=
  packet_split_iter_spec.1 [[7], [8, 9]] (by decide)

theorem lookupBit_bitOrInsert (m : List (DirectAddr × Nat)) (k k' : DirectAddr) (bit : Nat) :
    lookupBit (bitOrInsert m k bit) k' =
      if k' = k then some ((lookupBit m k').getD 0 ||| bit) else lookupBit m k' := by
  induction m with
  | nil =>
    by_cases h : k' = k
    · subst h
      simp [bitOrInsert, lookupBit]
    · simp [bitOrInsert, lookupBit, h, Ne.symm h]
  | cons kv rest ih =>
    obtain ⟨k0, v0⟩ := kv
    by_cases h0 : k0 = k
    · subst h0
      by_cases h1 : k' = k0
      · subst h1
        simp [bitOrInsert, lookupBit]
      · simp [bitOrInsert, lookupBit, h1, Ne.symm h1]
    · by_cases h1 : k0 = k'
      · subst h1
        have h2 : ¬k0 = k := h0
        simp [bitOrInsert, lookupBit, h0, h2]
      · simp [bitOrInsert, lookupBit, h0, h1, ih]

theorem lookupBit_foldl (bit : Nat) (l : List DirectAddr) (m : List (DirectAddr × Nat))
    (k : DirectAddr) :
    lookupBit (l.foldl (fun m x => bitOrInsert m x bit) m) k =
      if k ∈ l then some ((lookupBit m k).getD 0 ||| bit) else lookupBit m k := by
  induction l generalizing m with
  | nil => simp
  | cons a l ih =>
    rw [List.foldl_cons, ih]
    by_cases ha : k = a
    · subst ha
      by_cases hl : k ∈ l
      · simp [hl, lookupBit_bitOrInsert, Nat.or_assoc, Nat.or_self]
      · simp [hl, lookupBit_bitOrInsert]
    · by_cases hl : k ∈ l
      · simp [hl, lookupBit_bitOrInsert, ha]
      · simp [hl, lookupBit_bitOrInsert, ha]

theorem keys_bitOrInsert (m : List (DirectAddr × Nat)) (k : DirectAddr) (bit : Nat) :
    (bitOrInsert m k bit).map Prod.fst =
      if k ∈ m.map Prod.fst then m.map Prod.fst else m.map Prod.fst ++ [k] := by
  induction m with
  | nil => simp [bitOrInsert]
  | cons kv rest ih =>
    obtain ⟨k0, v0⟩ := kv
    by_cases h0 : k0 = k
    · subst h0
      simp [bitOrInsert]
    · have hne : ¬k = k0 := fun hh => h0 hh.symm
      by_cases hk : k ∈ rest.map Prod.fst
      · simp [bitOrInsert, h0, ih, hk, hne]
      · simp [bitOrInsert, h0, ih, hk, hne]

theorem nodupKeys_bitOrInsert (m : List (DirectAddr × Nat)) (k : DirectAddr) (bit : Nat)
    (hm : (m.map Prod.fst).Nodup) : ((bitOrInsert m k bit).map Prod.fst).Nodup := by
  rw [keys_bitOrInsert]
  by_cases hk : k ∈ m.map Prod.fst
  · simpa [hk] using hm
  · simp only [hk, if_false]
    rw [List.nodup_append]
    have hdisj : (m.map Prod.fst).Disjoint [k] := by
      intro a ha hak
      rw [List.mem_singleton] at hak
      subst hak
      exact hk ha
    exact ⟨hm, List.nodup_singleton k, hdisj⟩

theorem nodupKeys_foldl (bit : Nat) (l : List DirectAddr) (m : List (DirectAddr × Nat))
    (hm : (m.map Prod.fst).Nodup) :
    ((l.foldl (fun m x => bitOrInsert m x bit) m).map Prod.fst).Nodup := by
  induction l generalizing m with
  | nil => simpa using hm
  | cons a l ih =>
    rw [List.foldl_cons]
    exact ih _ (nodupKeys_bitOrInsert m a bit hm)

theorem mem_iff_lookupBit (m : List (DirectAddr × Nat)) (hm : (m.map Prod.fst).Nodup)
    (k : DirectAddr) (v : Nat) : (k, v) ∈ m ↔ lookupBit m k = some v := by
  induction m with
  | nil => simp [lookupBit]
  | cons kv rest ih =>
    obtain ⟨k0, v0⟩ := kv
    simp only [List.map_cons, List.nodup_cons] at hm
    by_cases h0 : k0 = k
    · subst h0
      simp only [lookupBit, if_pos rfl, List.mem_cons]
      constructor
      · rintro (h | h)
        · cases h; rfl
        · exact absurd (List.mem_map_of_mem Prod.fst h) (by simpa using hm.1)
      · intro h
        left
        cases h
        rfl
    · simp only [lookupBit, if_neg h0, List.mem_cons]
      rw [← ih hm.2]
      constructor
      · rintro (h | h)
        · cases h; exact absurd rfl h0
        · exact h
      · exact Or.inr

theorem all_eq_three_iff (m : List (DirectAddr × Nat)) (hm : (m.map Prod.fst).Nodup) :
    (m.all fun kv => kv.2 == 3) = true ↔ ∀ k v, lookupBit m k = some v → v = 3 := by
  rw [List.all_eq_true]
  constructor
  · intro h k v hl
    have hmem := (mem_iff_lookupBit m hm k v).mpr hl
    simpa using h _ hmem
  · intro h kv hkv
    obtain ⟨k, v⟩ := kv
    have := (mem_iff_lookupBit m hm k v).mp hkv
    simpa using h k v this

theorem lookupBit_final (xs ys : List DirectAddr) (a : DirectAddr) :
    lookupBit (ys.foldl (fun m y => bitOrInsert m y 2)
        (xs.foldl (fun m x => bitOrInsert m x 1) [])) a =
      if a ∈ xs then (if a ∈ ys then some 3 else some 1)
      else (if a ∈ ys then some 2 else none) := by
  rw [lookupBit_foldl, lookupBit_foldl]
  by_cases hx : a ∈ xs <;> by_cases hy : a ∈ ys <;>
    simp [hx, hy, lookupBit, (by decide : (1 : Nat) ||| 2 = 3),
      (by decide : (0 : Nat) ||| 2 = 2), (by decide : (0 : Nat) ||| 1 = 1)]

/-- **C3 (amended).** `endpoint_sets_equal` (and hence `PartialEq` on
`DiscoveredDirectAddrs`) decides *set* equality of the two address lists:
it returns `true` exactly when the two lists contain the same elements,
ignoring both order and multiplicity. -/
theorem endpoint_sets_equal_iff (xs ys : List DirectAddr) :
    endpoint_sets_equal xs ys = true ↔ ∀ a : DirectAddr, a ∈ xs ↔ a ∈ ys := by
  unfold endpoint_sets_equal
  by_cases h1 : xs = [] ∧ ys = []
  · simp [h1.1, h1.2]
  · rw [if_neg h1]
    by_cases h2 : xs.length = ys.length ∧ xs = ys
    · simp [if_pos h2, h2.2]
    · rw [if_neg h2]
      have hnodup :
          ((ys.foldl (fun m y => bitOrInsert m y 2)
            (xs.foldl (fun m x => bitOrInsert m x 1) [])).map Prod.fst).Nodup :=
        nodupKeys_foldl 2 ys _ (nodupKeys_foldl 1 xs [] (by simp))
      rw [all_eq_three_iff _ hnodup]
      constructor
      · intro h a
        constructor
        · intro hax
          by_contra hay
          have := h a 1 (by rw [lookupBit_final]; simp [hax, hay])
          exact absurd this (by decide)
        · intro hay
          by_contra hax
          have := h a 2 (by rw [lookupBit_final]; simp [hax, hay])
          exact absurd this (by decide)
      · intro h k v hl
        rw [lookupBit_final] at hl
        by_cases hx : k ∈ xs
        · have hy : k ∈ ys := (h k).mp hx
          simp [hx, hy] at hl
          omega
        · have hy : k ∉ ys := fun hh => hx ((h k).mpr hh)
          simp [hx, hy] at hl

/-- Counterexample for **C3** as stated: `endpoint_sets_equal` treats a list
and the list with the same element repeated as equal, although they differ as
multisets — multiplicities do *not* matter. -/
theorem endpoint_sets_equal_multiset_counterexample :
    endpoint_sets_equal
        [⟨⟨.v4 [127, 0, 0, 1], 80⟩, .Stun⟩]
        [⟨⟨.v4 [127, 0, 0, 1], 80⟩, .Stun⟩, ⟨⟨.v4 [127, 0, 0, 1], 80⟩, .Stun⟩] = true ∧
      (([⟨⟨.v4 [127, 0, 0, 1], 80⟩, .Stun⟩] : List DirectAddr) : Multiset DirectAddr) ≠
        (([⟨⟨.v4 [127, 0, 0, 1], 80⟩, .Stun⟩,
           ⟨⟨.v4 [127, 0, 0, 1], 80⟩, .Stun⟩] : List DirectAddr) : Multiset DirectAddr) := by
  constructor
  · decide
  · intro h
    have hc := congrArg Multiset.card h
    simp at hc

/-- Witness for **C3 (amended)**: the set-equality law applied to two concrete
lists with different order and multiplicities. -/
theorem endpoint_sets_equal_iff_witness :
    endpoint_sets_equal
        [⟨⟨.v4 [1, 2, 3, 4], 10⟩, .Stun⟩, ⟨⟨.v4 [5, 6, 7, 8], 11⟩, .Local⟩]
        [⟨⟨.v4 [5, 6, 7, 8], 11⟩, .Local⟩, ⟨⟨.v4 [1, 2, 3, 4], 10⟩, .Stun⟩,
         ⟨⟨.v4 [5, 6, 7, 8], 11⟩, .Local⟩] = true :=
  (endpoint_sets_equal_iff _ _).mpr (by
    intro a
    simp only [List.mem_cons, List.not_mem_nil, or_false]
    tauto)

theorem sendOutcome_eq (env : MagicSockSendEnv) (transmit : Transmit)
    (udpAddr : Option SocketAddr) (relayUrl : Option RelayUrl) :
    sendOutcome
        (udpAddr.map fun addr => try_send_udp env addr { transmit with destination := addr })
        (relayUrl.map fun _ => try_send_relay env) =
      if (udpAttemptWouldBlock env transmit udpAddr &&
          relayAttemptWouldBlock env relayUrl) = true
      then Except.error IoErrorKind.wouldBlock else Except.ok () := by
  cases udpAddr <;> cases relayUrl <;>
    simp [sendOutcome, udpAttemptWouldBlock, relayAttemptWouldBlock, errIsWouldBlock]

theorem try_send_node_entry (env : MagicSockSendEnv) (transmit : Transmit)
    (nodeId : NodeId) (udpAddr : Option SocketAddr) (relayUrl : Option RelayUrl)
    (msgs : List PingAction) (contents : List (List Nat))
    (hclosed : env.closed = false)
    (hmap : env.getSendAddrs ⟨transmit.destination⟩ env.ipv6Reported =
      some (nodeId, udpAddr, relayUrl, msgs))
    (hsp : split_packets transmit = some contents) :
    try_send env transmit = some
      (sendOutcome
          (udpAddr.map fun addr => try_send_udp env addr { transmit with destination := addr })
          (relayUrl.map fun _ => try_send_relay env),
        ⟨udpEffectsOf transmit udpAddr, relayEffectsOf env nodeId relayUrl contents, msgs⟩) := by
  simp only [try_send, hclosed, Bool.false_eq_true, if_false, hmap]
  cases relayUrl with
  | none => rfl
  | some url =>
    rw [hsp]
    show some _ = _
    cases h : try_send_relay env with
    | ok u =>
      cases u
      simp only [relayEffectsOf, h]
      rfl
    | error e =>
      simp only [relayEffectsOf, h]
      rfl

/-- **C1.** For a transmit whose fake destination resolves in the node map
(socket not closed, `segment_size ≠ Some(0)` so the GSO split cannot panic):
`try_send` returns a `WouldBlock` error exactly when both the UDP attempt and
the relay attempt failed with `WouldBlock`; in every other case — at least
one success, hard errors, or only one path attempted and blocking — it
returns `Ok`. -/
theorem try_send_wouldblock_iff (env : MagicSockSendEnv) (transmit : Transmit)
    (nodeId : NodeId) (udpAddr : Option SocketAddr) (relayUrl : Option RelayUrl)
    (msgs : List PingAction)
    (hclosed : env.closed = false)
    (hmap : env.getSendAddrs ⟨transmit.destination⟩ env.ipv6Reported =
      some (nodeId, udpAddr, relayUrl, msgs))
    (hseg : transmit.segment_size ≠ some 0) :
    (try_send env transmit).map Prod.fst =
      some (if (udpAttemptWouldBlock env transmit udpAddr &&
                relayAttemptWouldBlock env relayUrl) = true
            then Except.error IoErrorKind.wouldBlock else Except.ok ()) := by
  obtain ⟨contents, hsp⟩ : ∃ c, split_packets transmit = some c := by
    cases hseg2 : transmit.segment_size with
    | none => exact ⟨[transmit.contents], by simp [split_packets, hseg2]⟩
    | some s =>
      cases s with
      | zero => exact absurd hseg2 hseg
      | succ n => exact ⟨chunksOf (n + 1) transmit.contents, by simp [split_packets, hseg2]⟩
  rw [try_send_node_entry env transmit nodeId udpAddr relayUrl msgs contents hclosed hmap hsp,
    Option.map_some', sendOutcome_eq]

/-- **C6.** For a transmit whose fake destination has no node-map entry (and
the socket is not closed), `try_send` returns `Ok(())` — neither an error nor
`WouldBlock` — performs no UDP send, queues no relay message and no ping
action. -/
theorem try_send_missing_node (env : MagicSockSendEnv) (transmit : Transmit)
    (hclosed : env.closed = false)
    (hmap : env.getSendAddrs ⟨transmit.destination⟩ env.ipv6Reported = none) :
    try_send env transmit = some (.ok (), noEffects) := by
  simp [try_send, hclosed, hmap]

/-- Witness for **C1**: with both paths available and both blocking, the
concrete `try_send` call surfaces `WouldBlock`. -/
theorem try_send_wouldblock_iff_witness :
    (try_send envBothBlocked
        ⟨⟨.v6 [253, 0, 0, 0, 0, 0, 0, 0, 0, 0, 0, 0, 0, 0, 0, 1], 12345⟩,
          [1, 2, 3], none, none⟩).map Prod.fst =
      some (Except.error IoErrorKind.wouldBlock) := by
  have h := try_send_wouldblock_iff envBothBlocked
    ⟨⟨.v6 [253, 0, 0, 0, 0, 0, 0, 0, 0, 0, 0, 0, 0, 0, 0, 1], 12345⟩, [1, 2, 3], none, none⟩
    0 (some ⟨.v4 [10, 0, 0, 1], 7000⟩) (some "https://relay.example") [] rfl rfl (by decide)
  rw [h]
  rfl

/-- Witness for **C6**: a concrete send to an unknown fake address returns
`Ok` with no effects. -/
theorem try_send_missing_node_witness :
    try_send envNoNode
        ⟨⟨.v6 [253, 0, 0, 0, 0, 0, 0, 0, 0, 0, 0, 0, 0, 0, 0, 2], 12345⟩, [9], some 3, none⟩ =
      some (.ok (), noEffects) :=
  try_send_missing_node envNoNode
    ⟨⟨.v6 [253, 0, 0, 0, 0, 0, 0, 0, 0, 0, 0, 0, 0, 0, 0, 2], 12345⟩, [9], some 3, none⟩
    rfl rfl

/-- **C4.** Once the `closed` flag is set, every `poll_recv` call returns
`Poll::Pending`, regardless of the buffers, the UDP poll results, or the
relay inbox contents. -/
theorem poll_recv_closed_pending (env : MagicSockRecvEnv) (h : env.closed = true) :
    poll_recv env = .pending := by
  simp [poll_recv, h]

/-- Witness for **C4**: a closed socket with data pending on every source
still polls as `Pending`. -/
theorem poll_recv_closed_pending_witness :
    poll_recv
        { closed := true
          pconn4Recv := .ready (.ok 3)
          pconn6Recv := some (.ready (.ok 2))
          relayInbox := [.ok (1, [1, 2, 3])]
          relayDisconnected := false
          bufsLen := 8 } = .pending :=
  poll_recv_closed_pending
    { closed := true
      pconn4Recv := .ready (.ok 3)
      pconn6Recv := some (.ready (.ok 2))
      relayInbox := [.ok (1, [1, 2, 3])]
      relayDisconnected := false
      bufsLen := 8 }
    rfl

/-- **C2.** A DISCO CallMeMaybe arriving from a UDP source (socket not
closed) is counted (`recv_disco_udp`, `recv_disco_call_me_maybe`) and warned
about, but dropped: `node_map.handle_call_me_maybe` is not invoked and no
ping is queued.  The same message arriving via relay *is* handed to
`handle_call_me_maybe`. -/
theorem call_me_maybe_udp_dropped (env : DiscoEnv) (sender : NodeId) (addr : SocketAddr)
    (nums : List SocketAddr) (url : RelayUrl) (key : NodeId)
    (hclosed : env.closed = false)
    (hmsg : env.unsealDecode = .ok (.callMeMaybe nums)) :
    handle_disco_message env sender (.udp addr) =
      ⟨[.recvDiscoUdp, .recvDiscoCallMeMaybe], [], [], [], [], 1⟩ ∧
    (handle_disco_message env sender (.relay url key)).callMeMaybeInvocations =
      [(sender, nums)] := by
  constructor
  · simp [handle_disco_message, hclosed, hmsg, DiscoMessageSource.is_relay]
  · simp [handle_disco_message, hclosed, hmsg, DiscoMessageSource.is_relay]

/-- Witness for **C2**: the concrete CallMeMaybe over UDP is counted, warned
about and dropped, while the same message via relay reaches the node map. -/
theorem call_me_maybe_udp_dropped_witness :
    handle_disco_message envCallMeMaybe 5 (.udp ⟨.v4 [9, 9, 9, 9], 5500⟩) =
      ⟨[.recvDiscoUdp, .recvDiscoCallMeMaybe], [], [], [], [], 1⟩ ∧
    (handle_disco_message envCallMeMaybe 5
        (.relay "https://relay.example" 7)).callMeMaybeInvocations =
      [(5, [⟨.v4 [1, 1, 1, 1], 1000⟩, ⟨.v4 [2, 2, 2, 2], 2000⟩])] :=
  call_me_maybe_udp_dropped envCallMeMaybe 5 ⟨.v4 [9, 9, 9, 9], 5500⟩
    [⟨.v4 [1, 1, 1, 1], 1000⟩, ⟨.v4 [2, 2, 2, 2], 2000⟩] "https://relay.example" 7 rfl rfl

/-- **C5.** `send_packet` errors — sending nothing — exactly on packets
larger than `MAX_PACKET_SIZE` (a size error is never produced at or below the
limit, and a packet of exactly `MAX_PACKET_SIZE` goes through when the writer
cooperates); a rate-limiter rejection drops the frame but still returns
`Ok`. -/
theorem send_packet_spec (env : SendPacketEnv) (dstKey : NodeId) (packet : List Nat) :
    (packet.length > MAX_PACKET_SIZE →
      send_packet env dstKey packet = (.error (.packetTooBig packet.length), [])) ∧
    (packet.length ≤ MAX_PACKET_SIZE →
      ∀ n, (send_packet env dstKey packet).1 ≠ .error (.packetTooBig n)) ∧
    (packet.length = MAX_PACKET_SIZE → env.writerSend = .ok () → env.writerFlush = .ok () →
      (∀ check, env.rateLimiterCheck = some check →
        check (Frame.len ⟨dstKey, packet⟩) = true) →
      send_packet env dstKey packet = (.ok (), [⟨dstKey, packet⟩])) ∧
    (∀ check, packet.length ≤ MAX_PACKET_SIZE → env.rateLimiterCheck = some check →
      check (Frame.len ⟨dstKey, packet⟩) = false →
      send_packet env dstKey packet = (.ok (), [])) := by
  refine ⟨?_, ?_, ?_, ?_⟩
  · intro hbig
    simp [send_packet, hbig]
  · intro hle n
    have hnot : ¬packet.length > MAX_PACKET_SIZE := by omega
    simp only [send_packet, hnot, if_false]
    cases hrl : env.rateLimiterCheck with
    | none =>
      simp only [sendFrame]
      cases hs : env.writerSend with
      | error e => simp
      | ok u =>
        cases u
        cases hf : env.writerFlush with
        | error e => simp
        | ok u => cases u; simp
    | some check =>
      by_cases hc : check (Frame.len ⟨dstKey, packet⟩)
      · simp only [hc, if_true, sendFrame]
        cases hs : env.writerSend with
        | error e => simp
        | ok u =>
          cases u
          cases hf : env.writerFlush with
          | error e => simp
          | ok u => cases u; simp
      · simp [hc]
  · intro heq hsend hflush hcheck
    have hnot : ¬packet.length > MAX_PACKET_SIZE := by omega
    simp only [send_packet, hnot, if_false]
    cases hrl : env.rateLimiterCheck with
    | none => simp [sendFrame, hsend, hflush]
    | some check =>
      have := hcheck check hrl
      simp [this, sendFrame, hsend, hflush]
  · intro check hle hrl hc
    have hnot : ¬packet.length > MAX_PACKET_SIZE := by omega
    simp [send_packet, hnot, hrl, hc]

/-- Witness for **C5**: an oversized packet errors and sends nothing; a
packet of exactly `MAX_PACKET_SIZE` sends; a rate-limited frame is dropped
with `Ok`. -/
theorem send_packet_spec_witness :
    send_packet envPlainWriter 7 (List.replicate (MAX_PACKET_SIZE + 1) 0) =
      (.error (.packetTooBig (MAX_PACKET_SIZE + 1)), []) ∧
    send_packet envPlainWriter 7 (List.replicate MAX_PACKET_SIZE 0) =
      (.ok (), [⟨7, List.replicate MAX_PACKET_SIZE 0⟩]) ∧
    send_packet envRateLimited 7 [1, 2, 3] = (.ok (), []) := by
  refine ⟨?_, ?_, ?_⟩
  · have h := (send_packet_spec envPlainWriter 7 (List.replicate (MAX_PACKET_SIZE + 1) 0)).1
      (by simp)
    simpa using h
  · exact (send_packet_spec envPlainWriter 7 (List.replicate MAX_PACKET_SIZE 0)).2.2.1
      (by simp) rfl rfl (fun check hc => by cases hc)
  · exact (send_packet_spec envRateLimited 7 [1, 2, 3]).2.2.2 (fun _ => false)
      (by simp [MAX_PACKET_SIZE]) rfl rfl

theorem counterAt_eq (n : Nat) : counterAt n = (1 + n) % 2 ^ 64 := by
  induction n with
  | zero =>
    show ADDR_COUNTER_INIT = (1 + 0) % 2 ^ 64
    rw [ADDR_COUNTER_INIT]
    omega
  | succ n ih =>
    show (counterAt n + 1) % 2 ^ 64 = (1 + (n + 1)) % 2 ^ 64
    rw [ih]
    omega

theorem counterAt_lt (n : Nat) : counterAt n < 2 ^ 64 := by
  rw [counterAt_eq]
  exact Nat.mod_lt _ (by positivity)

theorem toBeBytes8_inj (a b : Nat) (ha : a < 2 ^ 64) (hb : b < 2 ^ 64)
    (h : toBeBytes8 a = toBeBytes8 b) : a = b := by
  simp only [toBeBytes8, List.cons.injEq, and_true] at h
  omega

/-- **C8.** Every generated fake address is an IPv6 address starting with the
fixed ULA prefix byte `0xfd`, the fixed global ID and subnet bytes, paired
with port 12345; and within the first `2^64` calls of a process lifetime any
two `generate` calls return distinct addresses, the counter being strictly
increasing from its initial value 1. -/
theorem quic_mapped_addr_generate_spec :
    (∀ n : Nat, (genAt n).addr.port = 12345 ∧
      ∃ cbytes, (genAt n).addr.ip =
        IpAddr.v6 (0xfd :: ([21, 7, 10, 81, 11] ++ [0, 0] ++ cbytes))) ∧
    (∀ m n : Nat, m < n → n < 2 ^ 64 → genAt m ≠ genAt n) := by
  constructor
  · intro n
    exact ⟨rfl, ⟨toBeBytes8 (counterAt n), rfl⟩⟩
  · intro m n hmn hn heq
    have hbytes : toBeBytes8 (counterAt m) = toBeBytes8 (counterAt n) := by
      have h1 : (genAt m).addr.ip = (genAt n).addr.ip := by rw [heq]
      simp only [genAt, QuicMappedAddr.generate, IpAddr.v6.injEq, List.cons.injEq,
        List.append_cancel_left_eq] at h1
      exact h1.2
    have hc : counterAt m = counterAt n :=
      toBeBytes8_inj _ _ (counterAt_lt m) (counterAt_lt n) hbytes
    rw [counterAt_eq, counterAt_eq] at hc
    omega

/-- Witness for **C8**: the first two generated addresses are distinct, and
the first one carries the fixed prefix and port. -/
theorem quic_mapped_addr_generate_spec_witness :
    ((genAt 0).addr.port = 12345 ∧
      ∃ cbytes, (genAt 0).addr.ip =
        IpAddr.v6 (0xfd :: ([21, 7, 10, 81, 11] ++ [0, 0] ++ cbytes))) ∧
    genAt 0 ≠ genAt 1 :=
  ⟨quic_mapped_addr_generate_spec.1 0,
    quic_mapped_addr_generate_spec.2 0 1 (by decide) (by norm_num)⟩

/-- **C9.** Provided the cached IPv6 slot (when filled) holds an IPv6
address — which is how `local_addrs` is populated from the bound sockets —
`local_addr` always returns an IPv6 socket address: a cached IPv6 address is
returned as-is, and with only an IPv4 address its IP is rewritten to the
IPv4-mapped IPv6 address with the same port. -/
theorem local_addr_ipv6 (la : SocketAddr × Option SocketAddr)
    (h6 : ∀ a, la.2 = some a → a.is_ipv6 = true) :
    (local_addr la).is_ipv6 = true ∧
    (∀ a, la.2 = some a → local_addr la = a) ∧
    (∀ bytes, la.2 = none → la.1.ip = .v4 bytes →
      local_addr la = ⟨.v6 (to_ipv6_mapped bytes), la.1.port⟩) := by
  obtain ⟨a4, o6⟩ := la
  cases o6 with
  | some a =>
    refine ⟨h6 a rfl, ?_, ?_⟩
    · intro b hb
      cases hb
      rfl
    · intro bytes hnone _
      cases hnone
  | none =>
    cases h4 : a4.ip with
    | v4 bytes =>
      refine ⟨?_, ?_, ?_⟩
      · simp [local_addr, h4, SocketAddr.is_ipv6, IpAddr.is_ipv6]
      · intro b hb
        cases hb
      · intro bytes2 _ hip
        simp only [local_addr, h4]
        injection hip with hb
        subst hb
        rfl
    | v6 bytes =>
      refine ⟨?_, ?_, ?_⟩
      · simp [local_addr, h4, SocketAddr.is_ipv6, IpAddr.is_ipv6]
      · intro b hb
        cases hb
      · intro bytes2 _ hip
        simp at hip

/-- Witness for **C9**: with only an IPv4 local address `192.168.0.1:4433`
cached, `local_addr` returns the IPv4-mapped IPv6 address with the same
port. -/
theorem local_addr_ipv6_witness :
    (local_addr (⟨.v4 [192, 168, 0, 1], 4433⟩, none)).is_ipv6 = true ∧
    (∀ a, (none : Option SocketAddr) = some a →
      local_addr (⟨.v4 [192, 168, 0, 1], 4433⟩, none) = a) ∧
    (∀ bytes, (none : Option SocketAddr) = none →
      (IpAddr.v4 [192, 168, 0, 1]) = .v4 bytes →
      local_addr (⟨.v4 [192, 168, 0, 1], 4433⟩, none) =
        ⟨.v6 (to_ipv6_mapped bytes), 4433⟩) :=
  local_addr_ipv6 (⟨.v4 [192, 168, 0, 1], 4433⟩, none) (fun a ha => by cases ha)
